import Mathlib

/-!
Verification of the segmented-media acquisition pipeline of the
rutube-downloader repository.

The Python sources are shallowly embedded as pure Lean functions:

* Python strings are lists of characters (`Str`).
* The filesystem is modelled as explicit data threaded through the
  functions: the download directory is a list of file names or file
  entries, file contents are lists of bytes (`List Nat`), and each
  function returns the facts about the files it leaves behind.
  Local disk operations are modelled as reliable; the fallible
  external effects (HTTP requests made by `get_video_info`,
  `extract_video_info_from_page`, `parse_m3u8_playlist` and
  `download_segment`) are modelled as explicit outcome parameters
  carried by an `Env` record, one outcome per call site.
* Progress values, which the Python code computes in floating point,
  are modelled as rationals; every arithmetic operation involved
  (addition, division by a positive count, multiplication by a
  positive constant) is monotone in both models, so ordering facts
  transfer.
* Status events sent through the `status_callback` chain are modelled
  as a list of `Event` values in emission order; the human-readable
  message string of an event is not modelled, only its status and
  progress, which are the fields the claims speak about.
-/

/-- Python strings are modelled as lists of characters. -/
abbrev Str := List Char

namespace Rutube

/-! ## String helpers shared by the embedded functions -/

/-- Characters removed by the re.sub in `VideoService._sanitize_filename`. -/
def illegalChar (c : Char) : Bool :=
  c = '<' || c = '>' || c = ':' || c = '"' || c = '/' || c = '\\' ||
  c = '|' || c = '?' || c = '*'

/-- Python str.strip from the left: drop leading characters satisfying p. -/
def lstrip (p : Char → Bool) (l : Str) : Str := l.dropWhile p

/-- Python str.strip from the right: drop trailing characters satisfying p. -/
def rstrip (p : Char → Bool) (l : Str) : Str := (l.reverse.dropWhile p).reverse

/-- Python two-sided str.strip with a character predicate. -/
def stripBoth (p : Char → Bool) (l : Str) : Str := rstrip p (lstrip p l)

/-- The characters stripped by Python str.strip() with no argument. -/
def pyWs (c : Char) : Bool :=
  c = ' ' || c = '\t' || c = '\n' || c = '\r' || c = '\x0b' || c = '\x0c'

/-- The characters stripped by the strip call with argument dot-space
in `_sanitize_filename`. -/
def dotSpace (c : Char) : Bool := c = '.' || c = ' '

/-- The media suffix dot m p 4. -/
def mp4Ext : Str := ['.', 'm', 'p', '4']

/-- Python filename.lower().endswith of the media suffix. -/
def lowerEndsMp4 (l : Str) : Bool := mp4Ext.isSuffixOf (l.map Char.toLower)

/-! ## VideoService._sanitize_filename (services/video_service.py lines 17 to 47) -/

/-- Embedding of `VideoService._sanitize_filename`.  Returns `none` where
the Python function returns None (empty name after cleaning). -/
def sanitize_filename (filename : Str) : Option Str :=
  let name := if lowerEndsMp4 filename then filename.take (filename.length - 4)
              else filename
  let name := name.filter (fun c => !(illegalChar c))
  let name := stripBoth dotSpace name
  if name = [] then none
  else some (name.take 200)

/-- The fixed default artifact name video dot mp4. -/
def videoDefault : Str := ['v', 'i', 'd', 'e', 'o'] ++ mp4Ext

/-- Embedding of the final_filename computation in
`VideoService.download_and_get_path` (lines 99 to 112): outer strip of
whitespace, sanitization, re-appending the media suffix, and the
fallback to the default name. -/
def mkFinalFilename (fileName : Option Str) : Str :=
  match fileName with
  | none => videoDefault
  | some fn =>
    let st := stripBoth pyWs fn
    if st = [] then videoDefault
    else
      match sanitize_filename st with
      | none => videoDefault
      | some s => s ++ mp4Ext

/-! ## extract_video_id (rutube_downloader.py lines 16 to 19) -/

/-- The literal slash video slash searched for by the regular expression. -/
def videoPat : Str := ['/', 'v', 'i', 'd', 'e', 'o', '/']

/-- A character matched by the regex class a to f or 0 to 9. -/
def hexLower (c : Char) : Bool :=
  ('a' ≤ c && c ≤ 'f') || ('0' ≤ c && c ≤ '9')

/-- Embedding of `extract_video_id`: leftmost occurrence of the pattern
slash video slash followed by a nonempty maximal run of lowercase hex
characters; the run is the captured id. -/
def extract_video_id : Str → Option Str
  | [] => none
  | c :: t =>
    if videoPat.isPrefixOf (c :: t) then
      let run := ((c :: t).drop videoPat.length).takeWhile hexLower
      if run = [] then extract_video_id t else some run
    else extract_video_id t

/-- Python substring containment (the in operator on str). -/
def hasSubstr (sub : Str) : Str → Bool
  | [] => sub.isEmpty
  | c :: t => sub.isPrefixOf (c :: t) || hasSubstr sub t

/-- The domain marker checked by the URL validation. -/
def rutubeMarker : Str := ['r', 'u', 't', 'u', 'b', 'e', '.', 'r', 'u']

/-! ## Collision resolution (services/video_service.py lines 141 to 149) -/

/-- Decimal digit character for a digit below ten. -/
def digitCh (d : ℕ) : Char := Char.ofNat (48 + d)

/-- Decimal rendering of a natural number, as produced by the Python
f-string interpolation of the counter. -/
def natStr (n : ℕ) : Str := ((Nat.digits 10 n).map digitCh).reverse

/-- Candidate file name tried by the collision loop: the plain base name
for index zero, the base name with underscore k appended for index k. -/
def cand (stem : Str) : ℕ → Str
  | 0 => stem ++ mp4Ext
  | k + 1 => stem ++ ('_' :: natStr (k + 1)) ++ mp4Ext

/-- Embedding of the while loop in `download_and_get_path` that retries
candidate names while the current one exists.  The loop in the source
terminates because the directory is finite; here the same argument is
made explicit through a fuel parameter chosen large enough. -/
def collisionLoop (existing : List Str) (stem : Str) : ℕ → ℕ → Str
  | i, 0 => cand stem i
  | i, fuel + 1 =>
    if cand stem i ∈ existing then collisionLoop existing stem (i + 1) fuel
    else cand stem i

/-- The stem of a file name carrying the media suffix (Python Path.stem
applied to the final file name, which always ends in the suffix). -/
def stemOf (ff : Str) : Str := ff.take (ff.length - 4)

/-- The final name chosen by the collision loop for desired name ff
against the set of names already present in the download directory. -/
def resolveFinalName (existing : List Str) (ff : Str) : Str :=
  collisionLoop existing (stemOf ff) 0 (existing.length + 1)

/-! ## download_segment (rutube_downloader.py lines 214 to 231) -/

/-- Outcome of the single HTTP GET performed by `download_segment`,
the one external effect of that function:

* `connError`: the request itself raised before a response arrived;
* `httpError`: a response arrived with a non-2xx status, so
  raise_for_status raised before the destination file was opened;
* `writeError chunks`: the destination was opened (truncated) and the
  listed chunks were written before an exception interrupted the
  body stream or a write;
* `ok chunks`: every chunk of the body was written. -/
inductive FetchOutcome
  | connError
  | httpError
  | writeError (written : List (List ℕ))
  | ok (chunks : List (List ℕ))
deriving DecidableEq, Repr

/-- Embedding of `download_segment`.  The argument dest is the content of
the destination path before the call (none when absent); the result is
the returned boolean paired with the content of the destination path
after the call.  The Python function catches every exception, so it is
total: failure is the returned value false, never a raise. -/
def download_segment (o : FetchOutcome) (dest : Option (List ℕ)) :
    Bool × Option (List ℕ) :=
  match o with
  | .connError => (false, dest)
  | .httpError => (false, dest)
  | .writeError ws => (false, some ws.flatten)
  | .ok cs => (true, some cs.flatten)

/-- The bytes a successful segment download leaves in its slot, none
for a failed download. -/
def fetchBytes (o : FetchOutcome) : Option (List ℕ) :=
  match o with
  | .ok cs => some cs.flatten
  | _ => none

/-! ## Status events -/

/-- The status values sent through the callback chain. -/
inductive Status
  | initializing
  | fetching_info
  | parsing
  | downloading
  | merging
  | completed
  | error
deriving DecidableEq, Repr

/-- One status event: its status and its progress value (None in the
source becomes none here); the message text is not modelled. -/
structure Event where
  status : Status
  progress : Option ℚ
deriving DecidableEq, Repr

/-- An event is terminal when its status is completed or error. -/
def isTerm (ev : Event) : Bool :=
  ev.status = Status.completed || ev.status = Status.error

/-! ## The session environment -/

/-- Outcomes of the external effects of one download session, one field
per fallible call site of the source:

* `api`: result of `get_video_info` (none = returned None); when an
  info dictionary is obtained, only the m3u8 url that
  `get_m3u8_url` extracts from it is retained (none = not found);
* `pageInfo`: result of `extract_video_info_from_page`, same shape;
* `parse`: result of `parse_m3u8_playlist` (none = it raised; some
  segs = the ordered segment url list);
* `fetch`: the outcome of the HTTP GET performed by
  `download_segment` for each 0-based segment index. -/
structure Env where
  url : Str
  fileName : Option Str
  api : Option (Option Str)
  pageInfo : Option (Option Str)
  parse : Option (List Str)
  fetch : ℕ → FetchOutcome

/-- Progress value emitted after segment i of N is attempted. -/
def dlProgress (N i : ℕ) : ℚ := 20 + ((i : ℚ) / (N : ℚ)) * 60

/-- Progress value emitted after slot i of K is merged. -/
def mgProgress (K i : ℕ) : ℚ := 80 + ((i : ℚ) / (K : ℚ)) * 15

/-- The downloading-phase progress events, one per segment attempt. -/
def dlEvents (N : ℕ) : List Event :=
  (List.range N).map (fun j => ⟨Status.downloading, some (dlProgress N (j + 1))⟩)

/-- The merging-phase progress events, one per merged slot. -/
def mgEvents (K : ℕ) : List Event :=
  (List.range K).map (fun j => ⟨Status.merging, some (mgProgress K (j + 1))⟩)

/-- The downloaded_segments list built by the download loop: the loop
walks the segments in index order and appends the slot of each segment
whose `download_segment` call returned True; here the slot is
represented by the bytes sitting at the slot path. -/
def collectDownloaded (fetch : ℕ → FetchOutcome) (N : ℕ) : List (List ℕ) :=
  (List.range N).foldl
    (fun acc j =>
      let r := download_segment (fetch j) none
      if r.1 then acc ++ [r.2.getD []] else acc)
    []

/-- The merge loop of `merge_segments_async`: sequentially appends each
slot content to the (initially empty) output file. -/
def mergeSegments (slots : List (List ℕ)) : List ℕ :=
  slots.foldl (fun acc b => acc ++ b) []

/-- Result of `download_video`: the events it sent, the boolean it
returned, the bytes written to the output file (none when the file was
never opened for writing), and whether the per-session temporary
segment directory still exists when it returns. -/
structure DVOut where
  events : List Event
  ok : Bool
  written : Option (List ℕ)
  tempDirLeft : Bool
deriving Repr

/-- Embedding of `download_video` (rutube_downloader.py lines 234 to
339).  The parsing event with progress 0 precedes the parse attempt;
the temporary segment directory is created only after a nonempty
segment list is obtained, and is removed only on the success path. -/
def download_video (e : Env) : DVOut :=
  match e.parse with
  | none => ⟨[⟨.parsing, some 0⟩, ⟨.error, none⟩], false, none, false⟩
  | some segs =>
    if segs.isEmpty then
      ⟨[⟨.parsing, some 0⟩, ⟨.parsing, some 10⟩, ⟨.error, none⟩],
        false, none, false⟩
    else
      let N := segs.length
      let downloaded := collectDownloaded e.fetch N
      let evs := ⟨Status.parsing, some 0⟩ :: ⟨Status.parsing, some 10⟩ ::
        ⟨Status.downloading, some 20⟩ :: dlEvents N
      if downloaded.isEmpty then
        ⟨evs ++ [⟨Status.error, none⟩], false, none, true⟩
      else
        ⟨evs ++ ⟨Status.merging, some 80⟩ :: mgEvents downloaded.length,
          true, some (mergeSegments downloaded), false⟩

/-- The video_info selection of `download_rutube_video`: the api result
when present, otherwise the page-extraction result. -/
def getInfo (e : Env) : Option (Option Str) :=
  match e.api with
  | some i => some i
  | none => e.pageInfo

/-- The events sent by `download_rutube_video` before the info outcome
is known: initializing with progress 0, fetching_info with progresses
3 and 5, and additionally fetching_info with progress 7 when the api
call returned None and the page fallback is attempted. -/
def infoEvents (e : Env) : List Event :=
  if e.api.isSome then
    [⟨Status.initializing, some 0⟩, ⟨Status.fetching_info, some 3⟩,
     ⟨Status.fetching_info, some 5⟩]
  else
    [⟨Status.initializing, some 0⟩, ⟨Status.fetching_info, some 3⟩,
     ⟨Status.fetching_info, some 5⟩, ⟨Status.fetching_info, some 7⟩]

/-- Embedding of `download_rutube_video` (rutube_downloader.py lines 342
to 446): extraction of the video id (error before any other event when
it fails), retrieval of the video info, extraction of the playlist url
from it, then the download proper. -/
def download_rutube_video (e : Env) : DVOut :=
  match extract_video_id e.url with
  | none => ⟨[⟨Status.error, none⟩], false, none, false⟩
  | some _ =>
    match getInfo e with
    | none => ⟨infoEvents e ++ [⟨Status.error, none⟩], false, none, false⟩
    | some none =>
      ⟨infoEvents e ++ [⟨Status.fetching_info, some 10⟩, ⟨Status.error, none⟩],
        false, none, false⟩
    | some (some _) =>
      let dv := download_video e
      ⟨infoEvents e ++ ⟨Status.fetching_info, some 10⟩ :: dv.events,
        dv.ok, dv.written, dv.tempDirLeft⟩

/-- Result of `download_and_get_path`: the events that went through the
callback, the outcome (ValueError modelled as the error case, success
as the chosen final name paired with the artifact bytes), whether the
temporary output file is still on disk under its temporary name, and
whether the temporary segment directory is still on disk. -/
structure ServiceOut where
  events : List Event
  result : Except Unit (Str × List ℕ)
  tempFileLeft : Bool
  tempDirLeft : Bool

/-- Embedding of `VideoService.download_and_get_path` (services/
video_service.py lines 49 to 192) with a reliable local filesystem:
the temporary output file is created fresh, the rename to the final
name succeeds, and existing is the list of file names already present
in the download directory. -/
def download_and_get_path (e : Env) (existing : List Str) : ServiceOut :=
  if !(hasSubstr rutubeMarker e.url) then ⟨[], .error (), false, false⟩
  else
    let ff := mkFinalFilename e.fileName
    let drv := download_rutube_video e
    if !drv.ok then ⟨drv.events, .error (), false, drv.tempDirLeft⟩
    else
      let bytes := (drv.written).getD []
      if bytes.length = 0 then ⟨drv.events, .error (), false, drv.tempDirLeft⟩
      else ⟨drv.events, .ok (resolveFinalName existing ff, bytes), false,
        drv.tempDirLeft⟩

/-- Embedding of the websocket endpoint `download_video_status`
(routes/video.py lines 334 to 459): its own domain validation, the
events forwarded from the callback, and the terminal event it sends
itself (completed with progress 100 on success, error with null
progress on ValueError or any other failure). -/
def wsSession (e : Env) (existing : List Str) : List Event :=
  if !(hasSubstr rutubeMarker e.url) then [⟨Status.error, none⟩]
  else
    let s := download_and_get_path e existing
    match s.result with
    | .ok _ => s.events ++ [⟨Status.completed, some 100⟩]
    | .error _ => s.events ++ [⟨Status.error, none⟩]

/-! ## Artifact listing and retrieval (routes/video.py) -/

/-- A file of the download directory: name, modification time, size. -/
structure FEntry where
  name : Str
  mtime : ℚ
  size : ℕ
deriving DecidableEq, Repr

/-- Whether a name matches the glob star dot mp4. -/
def isMp4Name (n : Str) : Bool := mp4Ext.isSuffixOf n

/-- Embedding of `list_files` (routes/video.py lines 151 to 194): walks
the mp4 files of the directory, deletes every file whose age exceeds
the ttl, lists the rest.  Returns the listing and the directory content
after the call. -/
def list_files : List FEntry → ℚ → ℚ → List FEntry × List FEntry
  | [], _, _ => ([], [])
  | f :: rest, now, ttl =>
    let r := list_files rest now ttl
    if isMp4Name f.name then
      if now - f.mtime > ttl then (r.1, r.2)
      else (f :: r.1, f :: r.2)
    else (r.1, f :: r.2)

/-- The request method of the file retrieval endpoint. -/
inductive Method
  | GET
  | HEAD
deriving DecidableEq, Repr

/-- Deletion of the path with the given name (Python unlink). -/
def removeName (dir : List FEntry) (n : Str) : List FEntry :=
  dir.filter (fun f => !(f.name == n))

/-- Embedding of the exact-match branch of `get_downloaded_file`
(routes/video.py lines 255 to 331): missing file means NotFound; a file
older than the ttl is deleted and reported NotFound; a HEAD request
returns the file and deletes nothing; a GET request returns the file
and deletes it as a side effect of the completed response.  The result
is the served entry (none = NotFound) paired with the directory content
after the request. -/
def get_downloaded_file (dir : List FEntry) (fname : Str) (m : Method)
    (now ttl : ℚ) : Option FEntry × List FEntry :=
  match dir.find? (fun f => f.name == fname) with
  | none => (none, dir)
  | some f =>
    if now - f.mtime > ttl then (none, removeName dir fname)
    else
      match m with
      | .HEAD => (some f, dir)
      | .GET => (some f, removeName dir fname)

end Rutube

namespace Rutube

/-! ## Helper lemmas about the string operations -/

theorem map_toLower_mp4 : mp4Ext.map Char.toLower = mp4Ext := by decide

theorem lowerEndsMp4_append (x : Str) : lowerEndsMp4 (x ++ mp4Ext) = true := by
  unfold lowerEndsMp4
  rw [List.isSuffixOf_iff_suffix, List.map_append, map_toLower_mp4]
  exact List.suffix_append _ _

theorem take_append_mp4 (x : Str) :
    (x ++ mp4Ext).take ((x ++ mp4Ext).length - 4) = x := by
  have h : (x ++ mp4Ext).length - 4 = x.length := by
    simp [List.length_append, mp4Ext]
  rw [h]
  exact List.take_left x mp4Ext

theorem head?_dropWhile {p : Char → Bool} {l : Str} {c : Char}
    (h : (l.dropWhile p).head? = some c) : p c = false := by
  induction l with
  | nil => simp [List.dropWhile] at h
  | cons a t ih =>
    rw [List.dropWhile_cons] at h
    by_cases hp : p a
    · rw [if_pos hp] at h
      exact ih h
    · rw [if_neg hp] at h
      simp at h
      subst h
      exact Bool.not_eq_true _ ▸ (Bool.eq_false_iff.mpr hp)

theorem rstrip_prefix_self (p : Char → Bool) (l : Str) : rstrip p l <+: l := by
  have h : (l.reverse.dropWhile p) <:+ l.reverse := List.dropWhile_suffix p
  have := List.reverse_prefix.mpr h
  rwa [List.reverse_reverse] at this

theorem prefix_head? {x y : Str} {c : Char} (h : x <+: y)
    (hc : x.head? = some c) : y.head? = some c := by
  obtain ⟨t, rfl⟩ := h
  rw [List.head?_append, hc]
  rfl

theorem stripBoth_head? {p : Char → Bool} {l : Str} {c : Char}
    (h : (stripBoth p l).head? = some c) : p c = false := by
  unfold stripBoth at h
  have hh : (lstrip p l).head? = some c :=
    prefix_head? (rstrip_prefix_self p (lstrip p l)) h
  exact head?_dropWhile hh

theorem stripBoth_getLast? {p : Char → Bool} {l : Str} {c : Char}
    (h : (stripBoth p l).getLast? = some c) : p c = false := by
  unfold stripBoth rstrip at h
  rw [List.getLast?_reverse] at h
  exact head?_dropWhile h

theorem stripBoth_subset (p : Char → Bool) (l : Str) :
    ∀ c ∈ stripBoth p l, c ∈ l := by
  intro c hc
  have h1 : c ∈ lstrip p l := (rstrip_prefix_self p (lstrip p l)).subset hc
  exact (List.dropWhile_suffix p).subset h1

theorem sanitize_nil : sanitize_filename [] = none := by decide

/-! ## Claim C5: sanitization of requested file names -/

/-- Claim C5.  For every requested file name, sanitization strips an
existing media suffix (case-insensitive dot mp4) before re-appending it
exactly once, removes the illegal characters, strips leading and
trailing whitespace (outer Python strip) and dots and spaces, truncates
the base name to 200 characters, and falls back to the fixed default
name when the sanitized result is empty.  Conjuncts: (1) a name whose
stripped-suffix form does not itself end in the suffix sanitizes, after
appending the suffix, exactly as without it; (2) every sanitized base
is nonempty, at most 200 characters, free of illegal characters, has no
leading dot or space, and, when not truncated, no trailing dot or
space; (3) the final name re-appends the suffix to the sanitized base
exactly once; (4) when sanitization yields nothing the fixed default
name is used. -/
theorem c5_sanitize_filename :
    (∀ x : Str, lowerEndsMp4 x = false →
      sanitize_filename (x ++ mp4Ext) = sanitize_filename x) ∧
    (∀ s b : Str, sanitize_filename s = some b →
      b ≠ [] ∧ b.length ≤ 200 ∧ (∀ c ∈ b, illegalChar c = false) ∧
      (∀ c, b.head? = some c → dotSpace c = false) ∧
      (b.length < 200 → ∀ c, b.getLast? = some c → dotSpace c = false)) ∧
    (∀ fn b : Str, sanitize_filename (stripBoth pyWs fn) = some b →
      mkFinalFilename (some fn) = b ++ mp4Ext) ∧
    (∀ fn : Str, sanitize_filename (stripBoth pyWs fn) = none →
      mkFinalFilename (some fn) = videoDefault) := by
  refine ⟨?_, ?_, ?_, ?_⟩
  · intro x hx
    unfold sanitize_filename
    rw [lowerEndsMp4_append, if_pos rfl, take_append_mp4, hx]
    simp
  · intro s b h
    unfold sanitize_filename at h
    set n0 := if lowerEndsMp4 s then s.take (s.length - 4) else s with hn0
    set n1 := n0.filter (fun c => !(illegalChar c)) with hn1
    set n2 := stripBoth dotSpace n1 with hn2
    by_cases he : n2 = []
    · rw [if_pos he] at h
      exact absurd h (by simp)
    · rw [if_neg he] at h
      have hb : b = n2.take 200 := by
        have := Option.some.inj h
        exact this.symm
      refine ⟨?_, ?_, ?_, ?_, ?_⟩
      · rw [hb]
        intro hnil
        rcases (List.take_eq_nil_iff).mp hnil with h200 | hcon
        · exact absurd h200 (by norm_num)
        · exact he hcon
      · rw [hb, List.length_take]
        exact min_le_left _ _
      · intro c hc
        rw [hb] at hc
        have hc2 : c ∈ n2 := List.take_subset _ _ hc
        have hc1 : c ∈ n1 := stripBoth_subset _ _ _ hc2
        rw [hn1] at hc1
        have := List.mem_filter.mp hc1
        simpa using this.2
      · intro c hc
        rw [hb, List.head?_take] at hc
        rw [if_neg (by norm_num)] at hc
        exact stripBoth_head? hc
      · intro hlen c hc
        have hle : n2.length ≤ 200 := by
          rw [hb, List.length_take] at hlen
          rcases min_lt_iff.mp hlen with h1 | h2
          · exact absurd h1 (lt_irrefl _)
          · exact le_of_lt h2
        rw [hb, List.take_of_length_le hle] at hc
        exact stripBoth_getLast? hc
  · intro fn b h
    have hst : stripBoth pyWs fn ≠ [] := by
      intro hz
      rw [hz, sanitize_nil] at h
      exact absurd h (by simp)
    show (if stripBoth pyWs fn = [] then videoDefault
      else match sanitize_filename (stripBoth pyWs fn) with
        | none => videoDefault
        | some s => s ++ mp4Ext) = b ++ mp4Ext
    rw [if_neg hst, h]
  · intro fn h
    show (if stripBoth pyWs fn = [] then videoDefault
      else match sanitize_filename (stripBoth pyWs fn) with
        | none => videoDefault
        | some s => s ++ mp4Ext) = videoDefault
    by_cases hst : stripBoth pyWs fn = []
    · rw [if_pos hst]
    · rw [if_neg hst, h]

/-- Witness for C5 at a concrete input: the name with illegal characters
and an uppercase media suffix sanitizes to the cleaned base with the
suffix re-appended exactly once. -/
theorem c5_sanitize_filename_witness :
    mkFinalFilename (some ("  a<b|?.MP4".toList)) = "ab".toList ++ mp4Ext :=
  c5_sanitize_filename.2.2.1 ("  a<b|?.MP4".toList) ("ab".toList) (by decide)

/-! ## Claim C4: segment fetch failure semantics -/

/-- Claim C4, amended.  The segment fetch is total (the source catches
every exception, so failure is the returned value False, never a
raise); it returns success exactly for a fully written body; a failure
before the destination file is opened (connection error or non-2xx
status) leaves the destination unchanged; a successful fetch leaves
exactly the concatenation of the streamed chunks.  The original claim
additionally asserted that no partial file remains after any failure,
which the code violates for a failure in the middle of the body stream
(see the counterexample). -/
theorem c4_fetch_failure_semantics (o : FetchOutcome) (dest : Option (List ℕ)) :
    ((download_segment o dest).1 = true ↔ ∃ cs, o = FetchOutcome.ok cs) ∧
    ((o = FetchOutcome.connError ∨ o = FetchOutcome.httpError) →
      (download_segment o dest).2 = dest) ∧
    (∀ cs, o = FetchOutcome.ok cs →
      (download_segment o dest).2 = some cs.flatten) := by
  refine ⟨?_, ?_, ?_⟩
  · cases o <;> simp [download_segment]
  · rintro (rfl | rfl) <;> rfl
  · rintro cs rfl
    rfl

/-- Witness for C4: a concrete connection-error fetch returns failure
and leaves the absent destination absent. -/
theorem c4_fetch_failure_semantics_witness :
    (download_segment FetchOutcome.connError none).2 = none :=
  (c4_fetch_failure_semantics FetchOutcome.connError none).2.1 (Or.inl rfl)

/-- Counterexample to C4 as stated: a fetch whose HTTP response was fine
but whose body stream failed after one 8 KiB chunk was written returns
Failure yet leaves a partial file at the destination. -/
theorem c4_partial_file_counterexample :
    ¬ ((download_segment (FetchOutcome.writeError [[1]]) none).1 = false →
       (download_segment (FetchOutcome.writeError [[1]]) none).2 = none) := by
  decide

end Rutube

namespace Rutube

/-! ## Claim C6: collision resolution chooses the first free name -/

theorem digitCh_inj_below_ten :
    ∀ a < 10, ∀ b < 10, digitCh a = digitCh b → a = b := by decide

theorem map_digitCh_inj {l m : List ℕ} (hl : ∀ d ∈ l, d < 10)
    (hm : ∀ d ∈ m, d < 10) (h : l.map digitCh = m.map digitCh) : l = m := by
  induction l generalizing m with
  | nil =>
    cases m with
    | nil => rfl
    | cons b s => simp at h
  | cons a t ih =>
    cases m with
    | nil => simp at h
    | cons b s =>
      simp only [List.map_cons, List.cons.injEq] at h
      have hab : a = b :=
        digitCh_inj_below_ten a (hl a (List.mem_cons_self a t))
          b (hm b (List.mem_cons_self b s)) h.1
      have hts : t = s :=
        ih (fun d hd => hl d (List.mem_cons_of_mem _ hd))
          (fun d hd => hm d (List.mem_cons_of_mem _ hd)) h.2
      rw [hab, hts]

theorem natStr_inj {n m : ℕ} (h : natStr n = natStr m) : n = m := by
  unfold natStr at h
  have h1 : (Nat.digits 10 n).map digitCh = (Nat.digits 10 m).map digitCh := by
    have := congrArg List.reverse h
    simpa using this
  have h2 : Nat.digits 10 n = Nat.digits 10 m :=
    map_digitCh_inj
      (fun d hd => Nat.digits_lt_base (by norm_num) hd)
      (fun d hd => Nat.digits_lt_base (by norm_num) hd) h1
  have h3 := congrArg (Nat.ofDigits 10) h2
  rwa [Nat.ofDigits_digits, Nat.ofDigits_digits] at h3

theorem cand_zero (stem : Str) : cand stem 0 = stem ++ mp4Ext := rfl

theorem cand_succ (stem : Str) (k : ℕ) :
    cand stem (k + 1) = stem ++ ('_' :: natStr (k + 1)) ++ mp4Ext := rfl

theorem cand_inj (stem : Str) : Function.Injective (cand stem) := by
  intro i j h
  cases i with
  | zero =>
    cases j with
    | zero => rfl
    | succ k =>
      exfalso
      rw [cand_zero, cand_succ, List.append_assoc] at h
      have h2 := List.append_cancel_left h
      have := congrArg List.length h2
      simp [mp4Ext] at this
  | succ k =>
    cases j with
    | zero =>
      exfalso
      rw [cand_zero, cand_succ, List.append_assoc] at h
      have h2 := List.append_cancel_left h.symm
      have := congrArg List.length h2
      simp [mp4Ext] at this
    | succ j =>
      rw [cand_succ, cand_succ, List.append_assoc, List.append_assoc] at h
      have h2 := List.append_cancel_left h
      have h3 := List.append_cancel_right h2
      have h4 : natStr (k + 1) = natStr (j + 1) := (List.cons.inj h3).2
      rw [natStr_inj h4]

theorem exists_free_cand (existing : List Str) (stem : Str) :
    ∃ k, k ≤ existing.length ∧ cand stem k ∉ existing := by
  by_contra hc
  push_neg at hc
  have hsub : ∀ x ∈ (List.range (existing.length + 1)).map (cand stem),
      x ∈ existing := by
    intro x hx
    obtain ⟨k, hk, rfl⟩ := List.mem_map.mp hx
    exact hc k (Nat.lt_succ_iff.mp (List.mem_range.mp hk))
  have hnd : ((List.range (existing.length + 1)).map (cand stem)).Nodup :=
    List.Nodup.map (cand_inj stem) (List.nodup_range _)
  have h1 : ((List.range (existing.length + 1)).map (cand stem)).toFinset.card
      = existing.length + 1 := by
    rw [List.toFinset_card_of_nodup hnd]
    simp
  have h2 : ((List.range (existing.length + 1)).map (cand stem)).toFinset
      ⊆ existing.toFinset := by
    intro x hx
    rw [List.mem_toFinset] at hx ⊢
    exact hsub x hx
  have h3 := Finset.card_le_card h2
  have h4 := List.toFinset_card_le existing
  omega

theorem collisionLoop_finds (existing : List Str) (stem : Str) :
    ∀ fuel i, (∃ k, i ≤ k ∧ k ≤ i + fuel ∧ cand stem k ∉ existing) →
    ∃ K, collisionLoop existing stem i fuel = cand stem K ∧ i ≤ K ∧
      cand stem K ∉ existing ∧ ∀ j, i ≤ j → j < K → cand stem j ∈ existing := by
  intro fuel
  induction fuel with
  | zero =>
    rintro i ⟨k, hik, hki, hfree⟩
    have hk : k = i := by omega
    rw [hk] at hfree
    exact ⟨i, rfl, le_refl i, hfree, fun j h1 h2 => absurd (lt_of_le_of_lt h1 h2)
      (lt_irrefl i)⟩
  | succ fuel ih =>
    rintro i ⟨k, hik, hki, hfree⟩
    by_cases hmem : cand stem i ∈ existing
    · have hik1 : i + 1 ≤ k := by
        rcases Nat.eq_or_lt_of_le hik with rfl | h
        · exact absurd hmem hfree
        · omega
      obtain ⟨K, heq, hiK, hfreeK, hall⟩ := ih (i + 1) ⟨k, hik1, by omega, hfree⟩
      refine ⟨K, ?_, by omega, hfreeK, ?_⟩
      · show (if cand stem i ∈ existing
          then collisionLoop existing stem (i + 1) fuel else cand stem i) = _
        rw [if_pos hmem]
        exact heq
      · intro j hij hjK
        rcases Nat.eq_or_lt_of_le hij with rfl | h
        · exact hmem
        · exact hall j (by omega) hjK
    · refine ⟨i, ?_, le_refl i, hmem, fun j h1 h2 => absurd (lt_of_le_of_lt h1 h2)
        (lt_irrefl i)⟩
      show (if cand stem i ∈ existing
        then collisionLoop existing stem (i + 1) fuel else cand stem i) = _
      rw [if_neg hmem]

/-- Claim C6.  The final name chosen against the existing directory
content is the desired base name when free, otherwise the base name
with the first unused positive integer suffix appended (underscore 1,
underscore 2, and so on, in the candidate order of `cand`); the chosen
name is never one that already exists, so finalization never
overwrites an existing file. -/
theorem c6_first_free_suffix (existing : List Str) (ff : Str) :
    ∃ K, resolveFinalName existing ff = cand (stemOf ff) K ∧
      cand (stemOf ff) K ∉ existing ∧
      ∀ j < K, cand (stemOf ff) j ∈ existing := by
  obtain ⟨k, hk, hfree⟩ := exists_free_cand existing (stemOf ff)
  obtain ⟨K, heq, _, hfreeK, hall⟩ :=
    collisionLoop_finds existing (stemOf ff) (existing.length + 1) 0
      ⟨k, Nat.zero_le k, by omega, hfree⟩
  exact ⟨K, heq, hfreeK, fun j hj => hall j (Nat.zero_le j) hj⟩

/-! ## Claims C7 and C8: artifact retrieval and listing lifecycle -/

theorem find?_removeName (dir : List FEntry) (fname : Str) :
    (removeName dir fname).find? (fun g => g.name == fname) = none := by
  apply List.find?_eq_none.mpr
  intro g hg
  have := (List.mem_filter.mp hg).2
  simpa using this

/-- Claim C7, amended.  For an artifact present and within its ttl: a
full GET serves it and deletes it as a side effect, so a second GET of
the same name afterwards returns NotFound and deletes nothing further;
a HEAD of the unexpired artifact serves it and leaves the directory
unchanged.  The original claim additionally asserted that a HEAD never
triggers deletion of any artifact, which the code violates for an
artifact whose ttl already expired (see the counterexample). -/
theorem c7_single_use_get (dir : List FEntry) (fname : Str) (now now2 ttl : ℚ)
    (f : FEntry) (hfind : dir.find? (fun g => g.name == fname) = some f)
    (hfresh : now - f.mtime ≤ ttl) :
    get_downloaded_file dir fname Method.GET now ttl
      = (some f, removeName dir fname) ∧
    get_downloaded_file (removeName dir fname) fname Method.GET now2 ttl
      = (none, removeName dir fname) ∧
    get_downloaded_file dir fname Method.HEAD now ttl = (some f, dir) := by
  have hnotold : ¬ (now - f.mtime > ttl) := not_lt.mpr hfresh
  refine ⟨?_, ?_, ?_⟩
  · unfold get_downloaded_file
    rw [hfind]
    simp only [if_neg hnotold]
  · unfold get_downloaded_file
    rw [find?_removeName]
  · unfold get_downloaded_file
    rw [hfind]
    simp only [if_neg hnotold]

/-- Witness for C7 at a concrete directory: one fresh artifact, consumed
by a GET, is gone for the second GET, while a HEAD leaves it in place. -/
theorem c7_single_use_get_witness :
    get_downloaded_file [⟨"a.mp4".toList, 0, 1⟩] ("a.mp4".toList)
        Method.GET 1 2 = (some ⟨"a.mp4".toList, 0, 1⟩, []) ∧
    get_downloaded_file [] ("a.mp4".toList) Method.GET 5 2 = (none, []) ∧
    get_downloaded_file [⟨"a.mp4".toList, 0, 1⟩] ("a.mp4".toList)
        Method.HEAD 1 2 = (some ⟨"a.mp4".toList, 0, 1⟩, [⟨"a.mp4".toList, 0, 1⟩]) := by
  have h := c7_single_use_get [⟨"a.mp4".toList, 0, 1⟩] ("a.mp4".toList) 1 5 2
    ⟨"a.mp4".toList, 0, 1⟩ (by decide) (by norm_num)
  have hrm : removeName [(⟨"a.mp4".toList, 0, 1⟩ : FEntry)] ("a.mp4".toList) = [] := by
    decide
  refine ⟨?_, ?_, ?_⟩
  · rw [← hrm]
    exact h.1
  · rw [← hrm]
    exact h.2.1
  · exact h.2.2

/-- Counterexample to C7 as stated: a HEAD probe of an artifact whose
age exceeds the ttl deletes it from the directory. -/
theorem c7_head_expired_counterexample :
    ¬ ((get_downloaded_file [⟨"a.mp4".toList, 0, 1⟩] ("a.mp4".toList)
        Method.HEAD 10 1).2 = [⟨"a.mp4".toList, 0, 1⟩]) := by
  have hfind : ([⟨"a.mp4".toList, 0, 1⟩] : List FEntry).find?
      (fun g => g.name == "a.mp4".toList) = some ⟨"a.mp4".toList, 0, 1⟩ := by rfl
  have hrm : removeName [(⟨"a.mp4".toList, 0, 1⟩ : FEntry)] ("a.mp4".toList) = [] := by
    decide
  norm_num [get_downloaded_file, hfind, hrm]
  decide

theorem list_files_not_mem_of_expired (dir : List FEntry) (now ttl : ℚ)
    (f : FEntry) (hmp4 : isMp4Name f.name = true) (hexp : now - f.mtime > ttl) :
    f ∉ (list_files dir now ttl).1 ∧ f ∉ (list_files dir now ttl).2 := by
  induction dir with
  | nil => exact ⟨List.not_mem_nil f, List.not_mem_nil f⟩
  | cons g rest ih =>
    unfold list_files
    by_cases hg : isMp4Name g.name = true
    · rw [if_pos hg]
      by_cases hold : now - g.mtime > ttl
      · rw [if_pos hold]
        exact ih
      · rw [if_neg hold]
        constructor
        · intro hmem
          rcases List.mem_cons.mp hmem with rfl | hmem2
          · exact hold hexp
          · exact ih.1 hmem2
        · intro hmem
          rcases List.mem_cons.mp hmem with rfl | hmem2
          · exact hold hexp
          · exact ih.2 hmem2
    · rw [if_neg hg]
      constructor
      · exact ih.1
      · intro hmem
        rcases List.mem_cons.mp hmem with rfl | hmem2
        · exact hg hmp4
        · exact ih.2 hmem2

theorem list_files_mem_of_fresh (dir : List FEntry) (now ttl : ℚ)
    (f : FEntry) (hmem : f ∈ dir) (hmp4 : isMp4Name f.name = true)
    (hfresh : now - f.mtime ≤ ttl) :
    f ∈ (list_files dir now ttl).1 ∧ f ∈ (list_files dir now ttl).2 := by
  induction dir with
  | nil => cases hmem
  | cons g rest ih =>
    unfold list_files
    rcases List.mem_cons.mp hmem with rfl | hmem2
    · rw [if_pos hmp4, if_neg (not_lt.mpr hfresh)]
      exact ⟨List.mem_cons_self _ _, List.mem_cons_self _ _⟩
    · by_cases hg : isMp4Name g.name = true
      · rw [if_pos hg]
        by_cases hold : now - g.mtime > ttl
        · rw [if_pos hold]
          exact ih hmem2
        · rw [if_neg hold]
          exact ⟨List.mem_cons_of_mem _ (ih hmem2).1,
            List.mem_cons_of_mem _ (ih hmem2).2⟩
      · rw [if_neg hg]
        exact ⟨(ih hmem2).1, List.mem_cons_of_mem _ (ih hmem2).2⟩

/-- Claim C8.  An mp4 artifact whose age exceeds the ttl at listing time
is absent from the returned listing and deleted from the directory as a
side effect of the listing call; an artifact at or under the ttl is
listed and kept. -/
theorem c8_listing_ttl (dir : List FEntry) (now ttl : ℚ) (f : FEntry)
    (hmem : f ∈ dir) (hmp4 : isMp4Name f.name = true) :
    (now - f.mtime > ttl →
      f ∉ (list_files dir now ttl).1 ∧ f ∉ (list_files dir now ttl).2) ∧
    (now - f.mtime ≤ ttl →
      f ∈ (list_files dir now ttl).1 ∧ f ∈ (list_files dir now ttl).2) :=
  ⟨fun hexp => list_files_not_mem_of_expired dir now ttl f hmp4 hexp,
   fun hfresh => list_files_mem_of_fresh dir now ttl f hmem hmp4 hfresh⟩

/-- Witness for C8 at a concrete directory holding one expired and one
fresh artifact: the expired one is swept and unlisted, the fresh one is
listed and kept. -/
theorem c8_listing_ttl_witness :
    ((⟨"old.mp4".toList, 0, 5⟩ : FEntry)
        ∉ (list_files [⟨"old.mp4".toList, 0, 5⟩, ⟨"new.mp4".toList, 9, 7⟩] 10 3).1 ∧
      (⟨"old.mp4".toList, 0, 5⟩ : FEntry)
        ∉ (list_files [⟨"old.mp4".toList, 0, 5⟩, ⟨"new.mp4".toList, 9, 7⟩] 10 3).2) ∧
    ((⟨"new.mp4".toList, 9, 7⟩ : FEntry)
        ∈ (list_files [⟨"old.mp4".toList, 0, 5⟩, ⟨"new.mp4".toList, 9, 7⟩] 10 3).1 ∧
      (⟨"new.mp4".toList, 9, 7⟩ : FEntry)
        ∈ (list_files [⟨"old.mp4".toList, 0, 5⟩, ⟨"new.mp4".toList, 9, 7⟩] 10 3).2) :=
  ⟨(c8_listing_ttl [⟨"old.mp4".toList, 0, 5⟩, ⟨"new.mp4".toList, 9, 7⟩] 10 3
      ⟨"old.mp4".toList, 0, 5⟩ (by decide) (by decide)).1 (by norm_num),
   (c8_listing_ttl [⟨"old.mp4".toList, 0, 5⟩, ⟨"new.mp4".toList, 9, 7⟩] 10 3
      ⟨"new.mp4".toList, 9, 7⟩ (by decide) (by decide)).2 (by norm_num)⟩

end Rutube

namespace Rutube

/-! ## Bridge lemmas for the download pipeline -/

theorem collect_step (f : ℕ → FetchOutcome) (acc : List (List ℕ)) (j : ℕ) :
    (let r := download_segment (f j) none
     if r.1 then acc ++ [r.2.getD []] else acc)
    = match fetchBytes (f j) with
      | some b => acc ++ [b]
      | none => acc := by
  cases h : f j <;> simp [download_segment, fetchBytes, h]

theorem collect_go (f : ℕ → FetchOutcome) (l : List ℕ) (acc : List (List ℕ)) :
    l.foldl (fun acc j =>
      let r := download_segment (f j) none
      if r.1 then acc ++ [r.2.getD []] else acc) acc
    = acc ++ l.filterMap (fun j => fetchBytes (f j)) := by
  induction l generalizing acc with
  | nil => simp
  | cons a t ih =>
    rw [List.foldl_cons, collect_step, List.filterMap_cons]
    cases hfa : fetchBytes (f a) with
    | none =>
      simp only [hfa]
      exact ih acc
    | some b =>
      simp only [hfa]
      rw [ih (acc ++ [b])]
      simp

theorem collectDownloaded_eq (f : ℕ → FetchOutcome) (N : ℕ) :
    collectDownloaded f N
      = (List.range N).filterMap (fun j => fetchBytes (f j)) := by
  unfold collectDownloaded
  simpa using collect_go f (List.range N) []

theorem mergeSegments_go (slots : List (List ℕ)) (acc : List ℕ) :
    slots.foldl (fun acc b => acc ++ b) acc = acc ++ slots.flatten := by
  induction slots generalizing acc with
  | nil => simp
  | cons s t ih => simp [List.foldl_cons, ih]

theorem mergeSegments_eq_flatten (slots : List (List ℕ)) :
    mergeSegments slots = slots.flatten := by
  unfold mergeSegments
  simpa using mergeSegments_go slots []

theorem download_video_parse_fail (e : Env) (hp : e.parse = none) :
    download_video e = ⟨[⟨Status.parsing, some 0⟩, ⟨Status.error, none⟩],
      false, none, false⟩ := by
  unfold download_video
  rw [hp]

theorem download_video_no_segments (e : Env) (hp : e.parse = some []) :
    download_video e = ⟨[⟨Status.parsing, some 0⟩, ⟨Status.parsing, some 10⟩,
      ⟨Status.error, none⟩], false, none, false⟩ := by
  simp [download_video, hp]

theorem download_video_zero (e : Env) (segs : List Str)
    (hp : e.parse = some segs) (hne : segs ≠ [])
    (hzero : collectDownloaded e.fetch segs.length = []) :
    download_video e = ⟨(⟨Status.parsing, some 0⟩ :: ⟨Status.parsing, some 10⟩ ::
      ⟨Status.downloading, some 20⟩ :: dlEvents segs.length) ++
      [⟨Status.error, none⟩], false, none, true⟩ := by
  simp [download_video, hp, List.isEmpty_iff, hne, hzero]

theorem download_video_success (e : Env) (segs : List Str)
    (hp : e.parse = some segs) (hne : segs ≠ [])
    (hK : collectDownloaded e.fetch segs.length ≠ []) :
    download_video e = ⟨(⟨Status.parsing, some 0⟩ :: ⟨Status.parsing, some 10⟩ ::
      ⟨Status.downloading, some 20⟩ :: dlEvents segs.length) ++
      (⟨Status.merging, some 80⟩ ::
        mgEvents (collectDownloaded e.fetch segs.length).length),
      true, some (mergeSegments (collectDownloaded e.fetch segs.length)),
      false⟩ := by
  simp [download_video, hp, List.isEmpty_iff, hne, hK]

theorem drv_no_id (e : Env) (hid : extract_video_id e.url = none) :
    download_rutube_video e = ⟨[⟨Status.error, none⟩], false, none, false⟩ := by
  unfold download_rutube_video
  rw [hid]

theorem drv_no_info (e : Env) (vid : Str)
    (hid : extract_video_id e.url = some vid) (hinfo : getInfo e = none) :
    download_rutube_video e = ⟨infoEvents e ++ [⟨Status.error, none⟩],
      false, none, false⟩ := by
  simp [download_rutube_video, hid, hinfo]

theorem drv_no_m3u8 (e : Env) (vid : Str)
    (hid : extract_video_id e.url = some vid) (hinfo : getInfo e = some none) :
    download_rutube_video e = ⟨infoEvents e ++
      [⟨Status.fetching_info, some 10⟩, ⟨Status.error, none⟩],
      false, none, false⟩ := by
  simp [download_rutube_video, hid, hinfo]

theorem drv_with_m3u8 (e : Env) (vid m : Str)
    (hid : extract_video_id e.url = some vid)
    (hinfo : getInfo e = some (some m)) :
    download_rutube_video e = ⟨infoEvents e ++
      ⟨Status.fetching_info, some 10⟩ :: (download_video e).events,
      (download_video e).ok, (download_video e).written,
      (download_video e).tempDirLeft⟩ := by
  simp [download_rutube_video, hid, hinfo]

theorem dagp_bad_domain (e : Env) (existing : List Str)
    (hmark : hasSubstr rutubeMarker e.url = false) :
    download_and_get_path e existing = ⟨[], .error (), false, false⟩ := by
  simp [download_and_get_path, hmark]

theorem dagp_not_ok (e : Env) (existing : List Str)
    (hmark : hasSubstr rutubeMarker e.url = true)
    (hok : (download_rutube_video e).ok = false) :
    download_and_get_path e existing = ⟨(download_rutube_video e).events,
      .error (), false, (download_rutube_video e).tempDirLeft⟩ := by
  simp [download_and_get_path, hmark, hok]

theorem dagp_ok_empty (e : Env) (existing : List Str)
    (hmark : hasSubstr rutubeMarker e.url = true)
    (hok : (download_rutube_video e).ok = true)
    (hbytes : ((download_rutube_video e).written.getD []).length = 0) :
    download_and_get_path e existing = ⟨(download_rutube_video e).events,
      .error (), false, (download_rutube_video e).tempDirLeft⟩ := by
  simp [download_and_get_path, hmark, hok, hbytes]

theorem dagp_ok_nonempty (e : Env) (existing : List Str)
    (hmark : hasSubstr rutubeMarker e.url = true)
    (hok : (download_rutube_video e).ok = true)
    (hbytes : ((download_rutube_video e).written.getD []).length ≠ 0) :
    download_and_get_path e existing = ⟨(download_rutube_video e).events,
      .ok (resolveFinalName existing (mkFinalFilename e.fileName),
        (download_rutube_video e).written.getD []),
      false, (download_rutube_video e).tempDirLeft⟩ := by
  simp [download_and_get_path, hmark, hok, hbytes]

theorem wsSession_bad_domain (e : Env) (existing : List Str)
    (hmark : hasSubstr rutubeMarker e.url = false) :
    wsSession e existing = [⟨Status.error, none⟩] := by
  simp [wsSession, hmark]

theorem wsSession_of_ok (e : Env) (existing : List Str) (p : Str × List ℕ)
    (hmark : hasSubstr rutubeMarker e.url = true)
    (h : (download_and_get_path e existing).result = .ok p) :
    wsSession e existing = (download_and_get_path e existing).events ++
      [⟨Status.completed, some 100⟩] := by
  simp [wsSession, hmark, h]

theorem wsSession_of_error (e : Env) (existing : List Str)
    (hmark : hasSubstr rutubeMarker e.url = true)
    (h : (download_and_get_path e existing).result = .error ()) :
    wsSession e existing = (download_and_get_path e existing).events ++
      [⟨Status.error, none⟩] := by
  simp [wsSession, hmark, h]

end Rutube

namespace Rutube

/-! ## Concrete session environments used by witnesses and
counterexamples -/

/-- A session whose two-segment download fully succeeds. -/
def envOk : Env where
  url := "https://rutube.ru/video/ab/".toList
  fileName := none
  api := some (some ['m'])
  pageInfo := none
  parse := some [['s'], ['t']]
  fetch := fun j => if j = 0 then FetchOutcome.ok [[1], [2]]
                    else FetchOutcome.ok [[3]]

/-- A session whose single segment download succeeds with an empty
response body, so the merged file has size zero. -/
def envEmpty : Env where
  url := "https://rutube.ru/video/ab/".toList
  fileName := none
  api := some (some ['m'])
  pageInfo := none
  parse := some [['s']]
  fetch := fun _ => FetchOutcome.ok []

/-- A session whose single segment download fails. -/
def envFail : Env where
  url := "https://rutube.ru/video/ab/".toList
  fileName := none
  api := some (some ['m'])
  pageInfo := none
  parse := some [['s']]
  fetch := fun _ => FetchOutcome.connError

/-- A session whose URL carries the domain marker but no video-id path
component. -/
def envNoId : Env where
  url := "https://rutube.ru/w".toList
  fileName := none
  api := none
  pageInfo := none
  parse := none
  fetch := fun _ => FetchOutcome.connError

/-! ## Claim C10: domain passes, id extraction fails -/

/-- Claim C10.  A URL containing the domain marker but no path component
matching the video-id pattern passes the domain validation of the
service and of the websocket route, yet the orchestrator emits a
terminal error event and returns False, so the service raises
ValueError; no exception escapes (the embedded functions are total, as
the source catches everything below the session boundary). -/
theorem c10_domain_pass_id_fail (e : Env) (existing : List Str)
    (hmark : hasSubstr rutubeMarker e.url = true)
    (hid : extract_video_id e.url = none) :
    download_rutube_video e = ⟨[⟨Status.error, none⟩], false, none, false⟩ ∧
    (download_and_get_path e existing).result = Except.error () ∧
    (wsSession e existing).getLast? = some ⟨Status.error, none⟩ := by
  have hdrv := drv_no_id e hid
  have hok : (download_rutube_video e).ok = false := by rw [hdrv]
  have hdagp := dagp_not_ok e existing hmark hok
  refine ⟨hdrv, by rw [hdagp], ?_⟩
  rw [wsSession_of_error e existing hmark (by rw [hdagp])]
  exact List.getLast?_concat _

/-- Witness for C10 at the concrete no-id URL. -/
theorem c10_domain_pass_id_fail_witness :
    download_rutube_video envNoId = ⟨[⟨Status.error, none⟩], false, none, false⟩ ∧
    (download_and_get_path envNoId []).result = Except.error () ∧
    (wsSession envNoId []).getLast? = some ⟨Status.error, none⟩ :=
  c10_domain_pass_id_fail envNoId [] (by decide) (by decide)

/-! ## Claim C9: zero-byte artifacts are rejected -/

/-- Claim C9.  When the download step reports success but the produced
file has size zero, the service deletes the zero-byte temporary file
and raises ValueError; a zero-byte artifact is never returned: every
successful result of the service carries nonempty bytes. -/
theorem c9_zero_byte_rejected (e : Env) (existing : List Str)
    (hmark : hasSubstr rutubeMarker e.url = true) :
    ((download_rutube_video e).ok = true →
      (download_rutube_video e).written = some [] →
      (download_and_get_path e existing).result = Except.error () ∧
      (download_and_get_path e existing).tempFileLeft = false) ∧
    (∀ nm b, (download_and_get_path e existing).result = Except.ok (nm, b) →
      b ≠ []) := by
  constructor
  · intro hok hwr
    have hb : ((download_rutube_video e).written.getD []).length = 0 := by
      rw [hwr]
      rfl
    rw [dagp_ok_empty e existing hmark hok hb]
    exact ⟨rfl, rfl⟩
  · intro nm b h
    by_cases hok : (download_rutube_video e).ok = true
    · by_cases hby : ((download_rutube_video e).written.getD []).length = 0
      · rw [dagp_ok_empty e existing hmark hok hby] at h
        exact absurd h (by simp)
      · rw [dagp_ok_nonempty e existing hmark hok hby] at h
        have h2 : (Except.ok (resolveFinalName existing (mkFinalFilename e.fileName),
            (download_rutube_video e).written.getD [])
            : Except Unit (Str × List ℕ)) = Except.ok (nm, b) := by
          simpa using h
        have h3 := Except.ok.inj h2
        have hb2 : b = (download_rutube_video e).written.getD [] := by
          have := congrArg Prod.snd h3
          simpa using this.symm
        intro hbnil
        apply hby
        rw [← hb2, hbnil]
        rfl
    · have hok2 : (download_rutube_video e).ok = false := by
        cases hx : (download_rutube_video e).ok
        · rfl
        · exact absurd hx hok
      rw [dagp_not_ok e existing hmark hok2] at h
      exact absurd h (by simp)

/-- Witness for C9: a session whose one segment succeeds with an empty
body produces a zero-byte merge, so the service raises and removes the
temporary file. -/
theorem c9_zero_byte_rejected_witness :
    (download_and_get_path envEmpty []).result = Except.error () ∧
    (download_and_get_path envEmpty []).tempFileLeft = false :=
  (c9_zero_byte_rejected envEmpty [] (by decide)).1 (by decide) (by decide)

end Rutube

namespace Rutube

/-! ## Claim C1: merge order and completion -/

theorem collect_nonempty_of_success (e : Env) (N : ℕ)
    (hK : ∃ j, j < N ∧ (download_segment (e.fetch j) none).1 = true) :
    collectDownloaded e.fetch N ≠ [] := by
  obtain ⟨j, hj, hsucc⟩ := hK
  rw [collectDownloaded_eq]
  cases h : e.fetch j with
  | connError => rw [h] at hsucc; exact absurd hsucc (by simp [download_segment])
  | httpError => rw [h] at hsucc; exact absurd hsucc (by simp [download_segment])
  | writeError ws => rw [h] at hsucc; exact absurd hsucc (by simp [download_segment])
  | ok cs =>
    apply List.ne_nil_of_mem (a := cs.flatten)
    rw [List.mem_filterMap]
    exact ⟨j, List.mem_range.mpr hj, by rw [h]; rfl⟩

/-- Claim C1, amended.  For every session that reaches the downloading
phase (valid domain, extractable id, info carrying a playlist url,
nonempty parsed segment list) in which at least one segment downloads
successfully, the service returns the artifact whose bytes are the
concatenation of exactly the successful segments in ascending
sequence-index order (failed segments skipped, completion order absent
from the model because each outcome is indexed by position), and,
provided that concatenation is nonempty, the session final status
event is completed.  The original claim lacked the nonemptiness
proviso: when every successful segment has an empty body, the merged
file has size zero and the session ends in error instead (see the
counterexample). -/
theorem c1_merge_order_completed (e : Env) (existing : List Str)
    (segs : List Str) (vid m : Str)
    (hmark : hasSubstr rutubeMarker e.url = true)
    (hid : extract_video_id e.url = some vid)
    (hinfo : getInfo e = some (some m))
    (hp : e.parse = some segs) (hne : segs ≠ [])
    (hK : ∃ j, j < segs.length ∧ (download_segment (e.fetch j) none).1 = true)
    (hbytes : ((List.range segs.length).filterMap
      (fun j => fetchBytes (e.fetch j))).flatten ≠ []) :
    (download_and_get_path e existing).result =
      Except.ok (resolveFinalName existing (mkFinalFilename e.fileName),
        ((List.range segs.length).filterMap
          (fun j => fetchBytes (e.fetch j))).flatten) ∧
    (wsSession e existing).getLast? = some ⟨Status.completed, some 100⟩ := by
  have hKne := collect_nonempty_of_success e segs.length hK
  have hdv := download_video_success e segs hp hne hKne
  have hdrv := drv_with_m3u8 e vid m hid hinfo
  have hok : (download_rutube_video e).ok = true := by
    rw [hdrv, hdv]
  have hmerge : mergeSegments (collectDownloaded e.fetch segs.length) =
      ((List.range segs.length).filterMap (fun j => fetchBytes (e.fetch j))).flatten := by
    rw [mergeSegments_eq_flatten, collectDownloaded_eq]
  have hwr : (download_rutube_video e).written =
      some (mergeSegments (collectDownloaded e.fetch segs.length)) := by
    rw [hdrv, hdv]
  have hgetD : (download_rutube_video e).written.getD [] =
      ((List.range segs.length).filterMap (fun j => fetchBytes (e.fetch j))).flatten := by
    rw [hwr, Option.getD_some, hmerge]
  have hlen : ((download_rutube_video e).written.getD []).length ≠ 0 := by
    rw [hgetD]
    exact fun h0 => hbytes (List.length_eq_zero.mp h0)
  have hdagp := dagp_ok_nonempty e existing hmark hok hlen
  have hres : (download_and_get_path e existing).result =
      Except.ok (resolveFinalName existing (mkFinalFilename e.fileName),
        ((List.range segs.length).filterMap
          (fun j => fetchBytes (e.fetch j))).flatten) := by
    rw [hdagp]
    simp [hgetD]
  refine ⟨hres, ?_⟩
  rw [wsSession_of_ok e existing _ hmark hres]
  exact List.getLast?_concat _

/-- Witness for C1 at the concrete two-segment environment: the
artifact is the concatenation of segment 0 then segment 1 and the
session ends with the completed event. -/
theorem c1_merge_order_completed_witness :
    (download_and_get_path envOk []).result =
      Except.ok (resolveFinalName [] (mkFinalFilename none), [1, 2, 3]) ∧
    (wsSession envOk []).getLast? = some ⟨Status.completed, some 100⟩ := by
  have h := c1_merge_order_completed envOk [] [['s'], ['t']] ['a', 'b'] ['m']
    (by decide) (by decide) (by decide) (by decide) (by decide)
    ⟨0, by norm_num, by decide⟩ (by decide)
  have hb : ((List.range ([['s'], ['t']] : List Str).length).filterMap
      (fun j => fetchBytes (envOk.fetch j))).flatten = [1, 2, 3] := by decide
  rw [hb] at h
  exact h

/-- Counterexample to C1 as stated: in a session whose single segment
downloads successfully but with an empty body, at least one segment
succeeded, yet the final event is error, not completed. -/
theorem c1_empty_body_counterexample :
    (∃ j, j < (([['s']] : List Str)).length ∧
      (download_segment (envEmpty.fetch j) none).1 = true) ∧
    ¬ ((wsSession envEmpty []).getLast? = some ⟨Status.completed, some 100⟩) := by
  constructor
  · exact ⟨0, by norm_num, by decide⟩
  · have hok : (download_rutube_video envEmpty).ok = true := by decide
    have hb : ((download_rutube_video envEmpty).written.getD []).length = 0 := by
      decide
    have hd := dagp_ok_empty envEmpty [] (by decide) hok hb
    have hws := wsSession_of_error envEmpty [] (by decide) (by rw [hd])
    rw [hws, List.getLast?_concat]
    simp

/-! ## Claim C3: zero successful segments -/

theorem collect_nil_of_all_fail (e : Env) (N : ℕ)
    (hzero : ∀ j, j < N → (download_segment (e.fetch j) none).1 = false) :
    collectDownloaded e.fetch N = [] := by
  rw [collectDownloaded_eq]
  rw [List.filterMap_eq_nil_iff]
  intro j hj
  have hjN := List.mem_range.mp hj
  cases h : e.fetch j with
  | connError => rfl
  | httpError => rfl
  | writeError ws => rfl
  | ok cs =>
    have := hzero j hjN
    rw [h] at this
    exact absurd this (by simp [download_segment])

/-- Claim C3, amended.  For every session that reaches the downloading
phase in which zero segments download successfully, the session ends in
error, no artifact is produced (the output file is never written and
the temporary output file is removed), but the temporary segment
directory is left on disk: the source removes it only on the success
path.  The original claim asserted no leftover temporary directory,
which the code violates (see the counterexample). -/
theorem c3_zero_success (e : Env) (existing : List Str)
    (segs : List Str) (vid m : Str)
    (hmark : hasSubstr rutubeMarker e.url = true)
    (hid : extract_video_id e.url = some vid)
    (hinfo : getInfo e = some (some m))
    (hp : e.parse = some segs) (hne : segs ≠ [])
    (hzero : ∀ j, j < segs.length → (download_segment (e.fetch j) none).1 = false) :
    (download_rutube_video e).ok = false ∧
    (download_rutube_video e).written = none ∧
    (download_and_get_path e existing).result = Except.error () ∧
    (download_and_get_path e existing).tempFileLeft = false ∧
    (download_and_get_path e existing).tempDirLeft = true ∧
    (wsSession e existing).getLast? = some ⟨Status.error, none⟩ := by
  have hnil := collect_nil_of_all_fail e segs.length hzero
  have hdv := download_video_zero e segs hp hne hnil
  have hdrv := drv_with_m3u8 e vid m hid hinfo
  have hok : (download_rutube_video e).ok = false := by
    rw [hdrv, hdv]
  have hwr : (download_rutube_video e).written = none := by
    rw [hdrv, hdv]
  have hdir : (download_rutube_video e).tempDirLeft = true := by
    rw [hdrv, hdv]
  have hdagp := dagp_not_ok e existing hmark hok
  refine ⟨hok, hwr, by rw [hdagp], by rw [hdagp], by rw [hdagp]; exact hdir, ?_⟩
  rw [wsSession_of_error e existing hmark (by rw [hdagp])]
  exact List.getLast?_concat _

/-- Witness for C3 at the concrete all-fail environment. -/
theorem c3_zero_success_witness :
    (download_and_get_path envFail []).result = Except.error () ∧
    (download_and_get_path envFail []).tempDirLeft = true :=
  let h := c3_zero_success envFail [] [['s']] ['a', 'b'] ['m']
    (by decide) (by decide) (by decide) (by decide) (by decide)
    (fun j _ => rfl)
  ⟨h.2.2.1, h.2.2.2.2.1⟩

/-- Counterexample to C3 as stated: a session with zero successful
segments ends in error with the temporary segment directory still on
disk. -/
theorem c3_temp_dir_counterexample :
    (download_and_get_path envFail []).result = Except.error () ∧
    ¬ ((download_and_get_path envFail []).tempDirLeft = false) := by
  have hok : (download_rutube_video envFail).ok = false := by decide
  have hd := dagp_not_ok envFail [] (by decide) hok
  constructor
  · rw [hd]
  · rw [hd]
    decide

end Rutube

namespace Rutube

/-! ## Claim C2: progress monotonicity and terminal events -/

/-- The status-progress pair carried by an event, none when the event
has a null progress. -/
def proj (ev : Event) : Option (Status × ℚ) :=
  ev.progress.map (fun p => (ev.status, p))

/-- The sequence of status-progress pairs of the events that carry a
progress value, in emission order. -/
def progressPairs (evs : List Event) : List (Status × ℚ) :=
  evs.filterMap proj

/-- The step relation that actually holds between consecutive progress
values of a session: the progress does not decrease, except at the
single boundary where the fetching_info phase hands over to the parsing
phase, where the source resets progress from 10 to 0. -/
def stepOk (a b : Status × ℚ) : Prop :=
  a.2 ≤ b.2 ∨ (a.1 = Status.fetching_info ∧ b.1 = Status.parsing)

instance stepOkDecidable : DecidableRel stepOk := by
  intro a b
  unfold stepOk
  infer_instance

theorem dlProgress_mono (N i : ℕ) (hN : N ≠ 0) :
    dlProgress N i ≤ dlProgress N (i + 1) := by
  unfold dlProgress
  have hN2 : (0 : ℚ) < N := by
    exact_mod_cast Nat.pos_of_ne_zero hN
  have hd : ((i : ℚ) + 1) / N - (i : ℚ) / N = 1 / N := by
    rw [div_sub_div_same]
    norm_num
  have hpos : 0 ≤ 1 / (N : ℚ) := by positivity
  have h1 : (i : ℚ) / N ≤ ((i : ℚ) + 1) / N := by linarith
  push_cast
  linarith

theorem dlProgress_le (N i : ℕ) (hN : N ≠ 0) (hi : i ≤ N) :
    dlProgress N i ≤ 80 := by
  unfold dlProgress
  have hN2 : (0 : ℚ) < N := by
    exact_mod_cast Nat.pos_of_ne_zero hN
  have h1 : (i : ℚ) / N ≤ 1 := by
    rw [div_le_one hN2]
    exact_mod_cast hi
  nlinarith

theorem dlProgress_ge (N i : ℕ) (hN : N ≠ 0) :
    20 ≤ dlProgress N i := by
  unfold dlProgress
  have hN2 : (0 : ℚ) < N := by
    exact_mod_cast Nat.pos_of_ne_zero hN
  have h1 : 0 ≤ (i : ℚ) / N := by positivity
  nlinarith

theorem mgProgress_mono (K i : ℕ) (hK : K ≠ 0) :
    mgProgress K i ≤ mgProgress K (i + 1) := by
  unfold mgProgress
  have hK2 : (0 : ℚ) < K := by
    exact_mod_cast Nat.pos_of_ne_zero hK
  have hd : ((i : ℚ) + 1) / K - (i : ℚ) / K = 1 / K := by
    rw [div_sub_div_same]
    norm_num
  have hpos : 0 ≤ 1 / (K : ℚ) := by positivity
  have h1 : (i : ℚ) / K ≤ ((i : ℚ) + 1) / K := by linarith
  push_cast
  linarith

theorem mgProgress_le (K i : ℕ) (hK : K ≠ 0) (hi : i ≤ K) :
    mgProgress K i ≤ 95 := by
  unfold mgProgress
  have hK2 : (0 : ℚ) < K := by
    exact_mod_cast Nat.pos_of_ne_zero hK
  have h1 : (i : ℚ) / K ≤ 1 := by
    rw [div_le_one hK2]
    exact_mod_cast hi
  nlinarith

theorem mgProgress_ge (K i : ℕ) (hK : K ≠ 0) :
    80 ≤ mgProgress K i := by
  unfold mgProgress
  have hK2 : (0 : ℚ) < K := by
    exact_mod_cast Nat.pos_of_ne_zero hK
  have h1 : 0 ≤ (i : ℚ) / K := by positivity
  nlinarith

theorem filterMap_proj_map (g : ℕ → Event) (h : ℕ → Status × ℚ)
    (hgh : ∀ j, proj (g j) = some (h j)) (l : List ℕ) :
    (l.map g).filterMap proj = l.map h := by
  induction l with
  | nil => rfl
  | cons a t ih => simp [hgh a, ih]

theorem dlEvents_pairs (N : ℕ) :
    progressPairs (dlEvents N) =
      (List.range N).map (fun j => (Status.downloading, dlProgress N (j + 1))) := by
  unfold progressPairs dlEvents
  apply filterMap_proj_map
  intro j
  rfl

theorem mgEvents_pairs (K : ℕ) :
    progressPairs (mgEvents K) =
      (List.range K).map (fun j => (Status.merging, mgProgress K (j + 1))) := by
  unfold progressPairs mgEvents
  apply filterMap_proj_map
  intro j
  rfl

theorem dlEvents_status (N : ℕ) :
    ∀ x ∈ dlEvents N, x.status = Status.downloading := by
  intro x hx
  obtain ⟨j, _, rfl⟩ := List.mem_map.mp hx
  rfl

theorem mgEvents_status (K : ℕ) :
    ∀ x ∈ mgEvents K, x.status = Status.merging := by
  intro x hx
  obtain ⟨j, _, rfl⟩ := List.mem_map.mp hx
  rfl

theorem map_range_head? {α : Type} (f : ℕ → α) (N : ℕ) (hN : N ≠ 0) :
    ((List.range N).map f).head? = some (f 0) := by
  cases N with
  | zero => exact absurd rfl hN
  | succ n =>
    rw [List.range_succ_eq_map]
    rfl

theorem map_range_getLast? {α : Type} (f : ℕ → α) (N : ℕ) (hN : N ≠ 0) :
    ((List.range N).map f).getLast? = some (f (N - 1)) := by
  cases N with
  | zero => exact absurd rfl hN
  | succ n =>
    rw [List.range_succ, List.map_append]
    simp

theorem chain_map_range (st : Status) (f : ℕ → ℚ) (N : ℕ)
    (hmono : ∀ i, f i ≤ f (i + 1)) :
    List.Chain' stepOk ((List.range N).map (fun j => (st, f (j + 1)))) := by
  rw [List.chain'_iff_get]
  intro i hi
  simp only [List.get_eq_getElem, List.getElem_map, List.getElem_range]
  exact Or.inl (hmono (i + 1))

end Rutube

namespace Rutube

theorem progressPairs_cons_some (st : Status) (p : ℚ) (l : List Event) :
    progressPairs (⟨st, some p⟩ :: l) = (st, p) :: progressPairs l := rfl

theorem progressPairs_cons_none (st : Status) (l : List Event) :
    progressPairs (⟨st, none⟩ :: l) = progressPairs l := rfl

theorem progressPairs_append (l₁ l₂ : List Event) :
    progressPairs (l₁ ++ l₂) = progressPairs l₁ ++ progressPairs l₂ :=
  List.filterMap_append _ _ _

theorem progressPairs_nil : progressPairs [] = [] := rfl

theorem mem_of_mem_getLast? {α : Type} {l : List α} {x : α}
    (h : x ∈ l.getLast?) : x ∈ l := by
  obtain ⟨hne, rfl⟩ := List.mem_getLast?_eq_getLast h
  exact List.getLast_mem hne

theorem dlProgress_last (N : ℕ) (hN : N ≠ 0) : dlProgress N N = 80 := by
  unfold dlProgress
  have h : (N : ℚ) ≠ 0 := by exact_mod_cast hN
  rw [div_self h]
  norm_num

theorem mgProgress_last (K : ℕ) (hK : K ≠ 0) : mgProgress K K = 95 := by
  unfold mgProgress
  have h : (K : ℚ) ≠ 0 := by exact_mod_cast hK
  rw [div_self h]
  norm_num

theorem isTerm_false_iff (x : Event) :
    isTerm x = false ↔ x.status ≠ Status.completed ∧ x.status ≠ Status.error := by
  unfold isTerm
  cases hx : x.status <;> simp [hx]

/-- The pair list of the downloading-phase events, with the leading
checkpoint event at progress 20. -/
theorem dl_block_chain (N : ℕ) (hN : N ≠ 0) :
    List.Chain' stepOk ((Status.downloading, (20 : ℚ)) ::
      (List.range N).map (fun j => (Status.downloading, dlProgress N (j + 1)))) := by
  rw [List.chain'_cons']
  constructor
  · intro y hy
    rw [map_range_head? _ N hN] at hy
    simp only [Option.mem_def, Option.some.injEq] at hy
    subst hy
    exact Or.inl (by simpa using dlProgress_ge N 1 hN)
  · exact chain_map_range _ _ N (fun i => dlProgress_mono N i hN)

theorem mg_block_chain (K : ℕ) (hK : K ≠ 0) :
    List.Chain' stepOk ((Status.merging, (80 : ℚ)) ::
      (List.range K).map (fun j => (Status.merging, mgProgress K (j + 1)))) := by
  rw [List.chain'_cons']
  constructor
  · intro y hy
    rw [map_range_head? _ K hK] at hy
    simp only [Option.mem_def, Option.some.injEq] at hy
    subst hy
    exact Or.inl (by simpa using mgProgress_ge K 1 hK)
  · exact chain_map_range _ _ K (fun i => mgProgress_mono K i hK)

theorem getLast?_cons_ne {α : Type} (a : α) (l : List α) (h : l ≠ []) :
    (a :: l).getLast? = l.getLast? := by
  cases l with
  | nil => exact absurd rfl h
  | cons b t => rw [List.getLast?_cons_cons]

theorem map_range_ne_nil {α : Type} (f : ℕ → α) (N : ℕ) (hN : N ≠ 0) :
    (List.range N).map f ≠ [] := by
  simp [List.map_eq_nil_iff, List.range_eq_nil, hN]

theorem dl_block_getLast (N : ℕ) (hN : N ≠ 0) :
    ((Status.downloading, (20 : ℚ)) ::
      (List.range N).map (fun j => (Status.downloading, dlProgress N (j + 1)))).getLast?
    = some (Status.downloading, (80 : ℚ)) := by
  rw [getLast?_cons_ne _ _ (map_range_ne_nil _ N hN), map_range_getLast? _ N hN]
  have h1 : N - 1 + 1 = N := Nat.succ_pred_eq_of_pos (Nat.pos_of_ne_zero hN)
  rw [h1, dlProgress_last N hN]

theorem mg_block_getLast (K : ℕ) (hK : K ≠ 0) :
    ((Status.merging, (80 : ℚ)) ::
      (List.range K).map (fun j => (Status.merging, mgProgress K (j + 1)))).getLast?
    = some (Status.merging, (95 : ℚ)) := by
  rw [getLast?_cons_ne _ _ (map_range_ne_nil _ K hK), map_range_getLast? _ K hK]
  have h1 : K - 1 + 1 = K := Nat.succ_pred_eq_of_pos (Nat.pos_of_ne_zero hK)
  rw [h1, mgProgress_last K hK]

end Rutube

namespace Rutube

/-- Shape of the event trace of `download_video`: the progress pairs
satisfy the step relation, every progress value is at most 100, the
first progress pair is parsing at 0, a successful run emits no terminal
event, and a failed run emits exactly one final error event preceded by
non-terminal events. -/
theorem dv_shape (e : Env) :
    List.Chain' stepOk (progressPairs (download_video e).events) ∧
    (∀ p ∈ progressPairs (download_video e).events, p.2 ≤ 100) ∧
    (progressPairs (download_video e).events).head? = some (Status.parsing, 0) ∧
    ((download_video e).ok = true →
      ∀ x ∈ (download_video e).events, isTerm x = false) ∧
    ((download_video e).ok = false →
      ∃ pre, (download_video e).events = pre ++ [⟨Status.error, none⟩] ∧
        ∀ x ∈ pre, isTerm x = false) := by
  cases hp : e.parse with
  | none =>
    have hdv := download_video_parse_fail e hp
    have hev : (download_video e).events =
        [⟨Status.parsing, some 0⟩, ⟨Status.error, none⟩] := by rw [hdv]
    have hok : (download_video e).ok = false := by rw [hdv]
    have hpp : progressPairs (download_video e).events =
        [(Status.parsing, 0)] := by rw [hev]; rfl
    refine ⟨?_, ?_, ?_, ?_, ?_⟩
    · rw [hpp]
      exact List.chain'_singleton _
    · rw [hpp]
      intro p hpm
      simp at hpm
      rw [hpm]
      norm_num
    · rw [hpp]
      rfl
    · intro h
      rw [hok] at h
      exact absurd h (by simp)
    · intro _
      refine ⟨[⟨Status.parsing, some 0⟩], by rw [hev]; rfl, ?_⟩
      intro x hx
      simp at hx
      rw [hx]
      rfl
  | some segs =>
    by_cases hseg : segs = []
    · subst hseg
      have hdv := download_video_no_segments e hp
      have hev : (download_video e).events =
          [⟨Status.parsing, some 0⟩, ⟨Status.parsing, some 10⟩,
           ⟨Status.error, none⟩] := by rw [hdv]
      have hok : (download_video e).ok = false := by rw [hdv]
      have hpp : progressPairs (download_video e).events =
          [(Status.parsing, 0), (Status.parsing, 10)] := by rw [hev]; rfl
      refine ⟨?_, ?_, ?_, ?_, ?_⟩
      · rw [hpp, List.chain'_cons]
        exact ⟨Or.inl (by norm_num), List.chain'_singleton _⟩
      · rw [hpp]
        intro p hpm
        rcases List.mem_cons.mp hpm with rfl | hpm2
        · norm_num
        · simp at hpm2
          rw [hpm2]
          norm_num
      · rw [hpp]
        rfl
      · intro h
        rw [hok] at h
        exact absurd h (by simp)
      · intro _
        refine ⟨[⟨Status.parsing, some 0⟩, ⟨Status.parsing, some 10⟩],
          by rw [hev]; rfl, ?_⟩
        intro x hx
        rcases List.mem_cons.mp hx with rfl | hx2
        · rfl
        · simp at hx2
          rw [hx2]
          rfl
    · have hN : segs.length ≠ 0 := fun h0 => hseg (List.length_eq_zero.mp h0)
      by_cases hnil : collectDownloaded e.fetch segs.length = []
      · have hdv := download_video_zero e segs hp hseg hnil
        have hev : (download_video e).events =
            (⟨Status.parsing, some 0⟩ :: ⟨Status.parsing, some 10⟩ ::
              ⟨Status.downloading, some 20⟩ :: dlEvents segs.length) ++
            [⟨Status.error, none⟩] := by rw [hdv]
        have hok : (download_video e).ok = false := by rw [hdv]
        have hpp : progressPairs (download_video e).events =
            (Status.parsing, 0) :: (Status.parsing, 10) ::
            ((Status.downloading, 20) :: (List.range segs.length).map
              (fun j => (Status.downloading, dlProgress segs.length (j + 1)))) := by
          rw [hev, progressPairs_append, progressPairs_cons_some,
            progressPairs_cons_some, progressPairs_cons_some, dlEvents_pairs]
          simp [progressPairs_cons_none, progressPairs_nil]
        refine ⟨?_, ?_, ?_, ?_, ?_⟩
        · rw [hpp, List.chain'_cons, List.chain'_cons]
          exact ⟨Or.inl (by norm_num), Or.inl (by norm_num),
            dl_block_chain segs.length hN⟩
        · rw [hpp]
          intro p hpm
          rcases List.mem_cons.mp hpm with rfl | hpm2
          · norm_num
          rcases List.mem_cons.mp hpm2 with rfl | hpm3
          · norm_num
          rcases List.mem_cons.mp hpm3 with rfl | hpm4
          · norm_num
          obtain ⟨j, hj, rfl⟩ := List.mem_map.mp hpm4
          have hle := dlProgress_le segs.length (j + 1) hN (List.mem_range.mp hj)
          show dlProgress segs.length (j + 1) ≤ 100
          linarith
        · rw [hpp]
          rfl
        · intro h
          rw [hok] at h
          exact absurd h (by simp)
        · intro _
          refine ⟨⟨Status.parsing, some 0⟩ :: ⟨Status.parsing, some 10⟩ ::
            ⟨Status.downloading, some 20⟩ :: dlEvents segs.length,
            by rw [hev], ?_⟩
          intro x hx
          rcases List.mem_cons.mp hx with rfl | hx2
          · rfl
          rcases List.mem_cons.mp hx2 with rfl | hx3
          · rfl
          rcases List.mem_cons.mp hx3 with rfl | hx4
          · rfl
          rw [isTerm_false_iff, dlEvents_status _ x hx4]
          exact ⟨by simp, by simp⟩
      · have hdv := download_video_success e segs hp hseg hnil
        have hK : (collectDownloaded e.fetch segs.length).length ≠ 0 :=
          fun h0 => hnil (List.length_eq_zero.mp h0)
        have hev : (download_video e).events =
            (⟨Status.parsing, some 0⟩ :: ⟨Status.parsing, some 10⟩ ::
              ⟨Status.downloading, some 20⟩ :: dlEvents segs.length) ++
            (⟨Status.merging, some 80⟩ ::
              mgEvents (collectDownloaded e.fetch segs.length).length) := by
          rw [hdv]
        have hok : (download_video e).ok = true := by rw [hdv]
        have hpp : progressPairs (download_video e).events =
            ((Status.parsing, 0) :: (Status.parsing, 10) ::
              ((Status.downloading, 20) :: (List.range segs.length).map
                (fun j => (Status.downloading, dlProgress segs.length (j + 1))))) ++
            ((Status.merging, 80) ::
              (List.range (collectDownloaded e.fetch segs.length).length).map
                (fun j => (Status.merging,
                  mgProgress (collectDownloaded e.fetch segs.length).length
                    (j + 1)))) := by
          rw [hev, progressPairs_append, progressPairs_cons_some,
            progressPairs_cons_some, progressPairs_cons_some, dlEvents_pairs,
            progressPairs_cons_some, mgEvents_pairs]
        have hA : ((Status.parsing, (0 : ℚ)) :: (Status.parsing, 10) ::
            ((Status.downloading, 20) :: (List.range segs.length).map
              (fun j => (Status.downloading, dlProgress segs.length (j + 1))))).getLast?
            = some (Status.downloading, (80 : ℚ)) := by
          rw [getLast?_cons_ne _ _ (List.cons_ne_nil _ _),
            getLast?_cons_ne _ _ (List.cons_ne_nil _ _),
            dl_block_getLast segs.length hN]
        refine ⟨?_, ?_, ?_, ?_, ?_⟩
        · rw [hpp]
          apply List.chain'_append.mpr
          refine ⟨?_, mg_block_chain _ hK, ?_⟩
          · rw [List.chain'_cons, List.chain'_cons]
            exact ⟨Or.inl (by norm_num), Or.inl (by norm_num),
              dl_block_chain segs.length hN⟩
          · intro x hx y hy
            rw [hA] at hx
            simp only [Option.mem_def, Option.some.injEq] at hx
            simp only [List.head?_cons, Option.mem_def, Option.some.injEq] at hy
            subst hx
            subst hy
            exact Or.inl (by norm_num)
        · rw [hpp]
          intro p hpm
          rcases List.mem_append.mp hpm with h1 | h2
          · rcases List.mem_cons.mp h1 with rfl | h1b
            · norm_num
            rcases List.mem_cons.mp h1b with rfl | h1c
            · norm_num
            rcases List.mem_cons.mp h1c with rfl | h1d
            · norm_num
            obtain ⟨j, hj, rfl⟩ := List.mem_map.mp h1d
            have hle := dlProgress_le segs.length (j + 1) hN (List.mem_range.mp hj)
            show dlProgress segs.length (j + 1) ≤ 100
            linarith
          · rcases List.mem_cons.mp h2 with rfl | h2b
            · norm_num
            obtain ⟨j, hj, rfl⟩ := List.mem_map.mp h2b
            have hle := mgProgress_le (collectDownloaded e.fetch segs.length).length
              (j + 1) hK (List.mem_range.mp hj)
            show mgProgress (collectDownloaded e.fetch segs.length).length (j + 1) ≤ 100
            linarith
        · rw [hpp]
          rfl
        · intro _ x hx
          rw [hev] at hx
          rcases List.mem_append.mp hx with h1 | h2
          · rcases List.mem_cons.mp h1 with rfl | h1b
            · rfl
            rcases List.mem_cons.mp h1b with rfl | h1c
            · rfl
            rcases List.mem_cons.mp h1c with rfl | h1d
            · rfl
            rw [isTerm_false_iff, dlEvents_status _ x h1d]
            exact ⟨by simp, by simp⟩
          · rcases List.mem_cons.mp h2 with rfl | h2b
            · rfl
            rw [isTerm_false_iff, mgEvents_status _ x h2b]
            exact ⟨by simp, by simp⟩
        · intro h
          rw [hok] at h
          exact absurd h (by simp)

end Rutube

namespace Rutube

theorem infoEvents_facts (e : Env) :
    (∀ x ∈ infoEvents e, isTerm x = false) ∧
    List.Chain' stepOk (progressPairs (infoEvents e)) ∧
    (∀ p ∈ progressPairs (infoEvents e), p.2 ≤ 7) ∧
    ∃ q, (progressPairs (infoEvents e)).getLast? = some (Status.fetching_info, q)
      ∧ q ≤ 7 := by
  by_cases h : e.api.isSome
  · have hie : infoEvents e =
        [⟨Status.initializing, some 0⟩, ⟨Status.fetching_info, some 3⟩,
         ⟨Status.fetching_info, some 5⟩] := by
      simp [infoEvents, h]
    rw [hie]
    refine ⟨?_, ?_, ?_, 5, by rfl, by norm_num⟩
    · intro x hx
      rcases List.mem_cons.mp hx with rfl | hx2
      · rfl
      rcases List.mem_cons.mp hx2 with rfl | hx3
      · rfl
      simp at hx3
      rw [hx3]
      rfl
    · show List.Chain' stepOk [(Status.initializing, 0), (Status.fetching_info, 3),
        (Status.fetching_info, 5)]
      rw [List.chain'_cons, List.chain'_cons]
      exact ⟨Or.inl (by norm_num), Or.inl (by norm_num), List.chain'_singleton _⟩
    · intro p hpm
      have hpm2 : p ∈ [(Status.initializing, (0 : ℚ)),
          (Status.fetching_info, 3), (Status.fetching_info, 5)] := hpm
      rcases List.mem_cons.mp hpm2 with rfl | h2
      · norm_num
      rcases List.mem_cons.mp h2 with rfl | h3
      · norm_num
      simp at h3
      rw [h3]
      norm_num
  · have hie : infoEvents e =
        [⟨Status.initializing, some 0⟩, ⟨Status.fetching_info, some 3⟩,
         ⟨Status.fetching_info, some 5⟩, ⟨Status.fetching_info, some 7⟩] := by
      simp [infoEvents, h]
    rw [hie]
    refine ⟨?_, ?_, ?_, 7, by rfl, by norm_num⟩
    · intro x hx
      rcases List.mem_cons.mp hx with rfl | hx2
      · rfl
      rcases List.mem_cons.mp hx2 with rfl | hx3
      · rfl
      rcases List.mem_cons.mp hx3 with rfl | hx4
      · rfl
      simp at hx4
      rw [hx4]
      rfl
    · show List.Chain' stepOk [(Status.initializing, 0), (Status.fetching_info, 3),
        (Status.fetching_info, 5), (Status.fetching_info, 7)]
      rw [List.chain'_cons, List.chain'_cons, List.chain'_cons]
      exact ⟨Or.inl (by norm_num), Or.inl (by norm_num), Or.inl (by norm_num),
        List.chain'_singleton _⟩
    · intro p hpm
      have hpm2 : p ∈ [(Status.initializing, (0 : ℚ)),
          (Status.fetching_info, 3), (Status.fetching_info, 5),
          (Status.fetching_info, 7)] := hpm
      rcases List.mem_cons.mp hpm2 with rfl | h2
      · norm_num
      rcases List.mem_cons.mp h2 with rfl | h3
      · norm_num
      rcases List.mem_cons.mp h3 with rfl | h4
      · norm_num
      simp at h4
      rw [h4]

/-- Shape of the event trace of `download_rutube_video`: progress pairs
satisfy the step relation, stay at most 100, a successful run emits no
terminal event, and a failed run emits exactly one final error event
preceded by non-terminal events. -/
theorem drv_shape (e : Env) :
    List.Chain' stepOk (progressPairs (download_rutube_video e).events) ∧
    (∀ p ∈ progressPairs (download_rutube_video e).events, p.2 ≤ 100) ∧
    ((download_rutube_video e).ok = true →
      ∀ x ∈ (download_rutube_video e).events, isTerm x = false) ∧
    ((download_rutube_video e).ok = false →
      ∃ pre, (download_rutube_video e).events = pre ++ [⟨Status.error, none⟩] ∧
        ∀ x ∈ pre, isTerm x = false) := by
  obtain ⟨hient, hiec, hieb, q, hieq, hq7⟩ := infoEvents_facts e
  cases hid : extract_video_id e.url with
  | none =>
    have hdrv := drv_no_id e hid
    have hev : (download_rutube_video e).events = [⟨Status.error, none⟩] := by
      rw [hdrv]
    have hok : (download_rutube_video e).ok = false := by rw [hdrv]
    have hpp : progressPairs (download_rutube_video e).events = [] := by
      rw [hev]
      rfl
    refine ⟨?_, ?_, ?_, ?_⟩
    · rw [hpp]
      exact List.chain'_nil
    · rw [hpp]
      intro p hpm
      cases hpm
    · intro h
      rw [hok] at h
      exact absurd h (by simp)
    · intro _
      exact ⟨[], by rw [hev]; rfl, fun x hx => absurd hx (List.not_mem_nil x)⟩
  | some vid =>
    cases hinfo : getInfo e with
    | none =>
      have hdrv := drv_no_info e vid hid hinfo
      have hev : (download_rutube_video e).events =
          infoEvents e ++ [⟨Status.error, none⟩] := by rw [hdrv]
      have hok : (download_rutube_video e).ok = false := by rw [hdrv]
      have hpp : progressPairs (download_rutube_video e).events =
          progressPairs (infoEvents e) := by
        rw [hev, progressPairs_append]
        simp [progressPairs_cons_none, progressPairs_nil]
      refine ⟨?_, ?_, ?_, ?_⟩
      · rw [hpp]
        exact hiec
      · rw [hpp]
        intro p hp
        exact le_trans (hieb p hp) (by norm_num)
      · intro h
        rw [hok] at h
        exact absurd h (by simp)
      · intro _
        exact ⟨infoEvents e, by rw [hev], hient⟩
    | some m =>
      cases m with
      | none =>
        have hdrv := drv_no_m3u8 e vid hid hinfo
        have hev : (download_rutube_video e).events =
            infoEvents e ++ [⟨Status.fetching_info, some 10⟩,
              ⟨Status.error, none⟩] := by rw [hdrv]
        have hok : (download_rutube_video e).ok = false := by rw [hdrv]
        have hpp : progressPairs (download_rutube_video e).events =
            progressPairs (infoEvents e) ++ [(Status.fetching_info, 10)] := by
          rw [hev, progressPairs_append, progressPairs_cons_some]
          simp [progressPairs_cons_none, progressPairs_nil]
        refine ⟨?_, ?_, ?_, ?_⟩
        · rw [hpp]
          apply List.chain'_append.mpr
          refine ⟨hiec, List.chain'_singleton _, ?_⟩
          intro x hx y hy
          rw [hieq] at hx
          simp only [Option.mem_def, Option.some.injEq] at hx
          simp only [List.head?_cons, Option.mem_def, Option.some.injEq] at hy
          subst hx
          subst hy
          exact Or.inl (show q ≤ (10 : ℚ) by linarith)
        · rw [hpp]
          intro p hpm
          rcases List.mem_append.mp hpm with h1 | h2
          · exact le_trans (hieb p h1) (by norm_num)
          · simp at h2
            rw [h2]
            norm_num
        · intro h
          rw [hok] at h
          exact absurd h (by simp)
        · intro _
          refine ⟨infoEvents e ++ [⟨Status.fetching_info, some 10⟩],
            by rw [hev]; simp, ?_⟩
          intro x hx
          rcases List.mem_append.mp hx with h1 | h2
          · exact hient x h1
          · simp at h2
            rw [h2]
            rfl
      | some murl =>
        obtain ⟨hdc, hdb, hdhead, hdok, hdfail⟩ := dv_shape e
        have hdrv := drv_with_m3u8 e vid murl hid hinfo
        have hev : (download_rutube_video e).events =
            infoEvents e ++ ⟨Status.fetching_info, some 10⟩ ::
              (download_video e).events := by rw [hdrv]
        have hok : (download_rutube_video e).ok = (download_video e).ok := by
          rw [hdrv]
        have hpp : progressPairs (download_rutube_video e).events =
            progressPairs (infoEvents e) ++ (Status.fetching_info, 10) ::
              progressPairs (download_video e).events := by
          rw [hev, progressPairs_append, progressPairs_cons_some]
        refine ⟨?_, ?_, ?_, ?_⟩
        · rw [hpp]
          apply List.chain'_append.mpr
          refine ⟨hiec, ?_, ?_⟩
          · rw [List.chain'_cons']
            constructor
            · intro y hy
              rw [hdhead] at hy
              simp only [Option.mem_def, Option.some.injEq] at hy
              subst hy
              exact Or.inr ⟨rfl, rfl⟩
            · exact hdc
          · intro x hx y hy
            rw [hieq] at hx
            simp only [Option.mem_def, Option.some.injEq] at hx
            simp only [List.head?_cons, Option.mem_def, Option.some.injEq] at hy
            subst hx
            subst hy
            exact Or.inl (show q ≤ (10 : ℚ) by linarith)
        · rw [hpp]
          intro p hpm
          rcases List.mem_append.mp hpm with h1 | h2
          · exact le_trans (hieb p h1) (by norm_num)
          rcases List.mem_cons.mp h2 with rfl | h3
          · norm_num
          · exact hdb p h3
        · intro h x hx
          rw [hok] at h
          rw [hev] at hx
          rcases List.mem_append.mp hx with h1 | h2
          · exact hient x h1
          rcases List.mem_cons.mp h2 with rfl | h3
          · rfl
          · exact hdok h x h3
        · intro h
          rw [hok] at h
          obtain ⟨pre, hpre, hprent⟩ := hdfail h
          refine ⟨infoEvents e ++ ⟨Status.fetching_info, some 10⟩ :: pre, ?_, ?_⟩
          · rw [hev, hpre]
            simp
          · intro x hx
            rcases List.mem_append.mp hx with h1 | h2
            · exact hient x h1
            rcases List.mem_cons.mp h2 with rfl | h3
            · rfl
            · exact hprent x h3

end Rutube

namespace Rutube

theorem progressPairs_err : progressPairs [⟨Status.error, none⟩] = [] := rfl

/-- Claim C2, amended.  For every session, the status-progress pairs of
the emitted event sequence (ignoring events with a null progress)
satisfy the step relation: progress never decreases except at the
single handover from the fetching_info phase to the parsing phase,
where the source resets progress from 10 to 0.  The event sequence
splits into a prefix of non-terminal events followed by a nonempty
terminal suffix of at most two events: a successful session ends with
exactly one terminal event, completed with progress 100, while a
failed session ends with one or two consecutive error events (the
orchestrator emits one, and the websocket route emits another when the
service raises).  The original claim asserted global non-decrease and
exactly one terminal event, both of which the code violates (see the
counterexample). -/
theorem c2_progress_terminal (e : Env) (existing : List Str) :
    List.Chain' stepOk (progressPairs (wsSession e existing)) ∧
    ∃ pre suf, wsSession e existing = pre ++ suf ∧
      (∀ x ∈ pre, isTerm x = false) ∧ suf ≠ [] ∧ suf.length ≤ 2 ∧
      (suf = [⟨Status.completed, some 100⟩] ∨
        ∀ x ∈ suf, x = ⟨Status.error, none⟩) := by
  obtain ⟨hc, hb, hoknt, hfail⟩ := drv_shape e
  by_cases hmark : hasSubstr rutubeMarker e.url = true
  · by_cases hok : (download_rutube_video e).ok = true
    · by_cases hbytes : ((download_rutube_video e).written.getD []).length = 0
      · have hd := dagp_ok_empty e existing hmark hok hbytes
        have hws := wsSession_of_error e existing hmark (by rw [hd])
        have hevs : (download_and_get_path e existing).events =
            (download_rutube_video e).events := by rw [hd]
        rw [hws, hevs]
        constructor
        · rw [progressPairs_append, progressPairs_err, List.append_nil]
          exact hc
        · refine ⟨(download_rutube_video e).events, [⟨Status.error, none⟩],
            rfl, hoknt hok, by simp, by simp, Or.inr ?_⟩
          intro x hx
          simpa using hx
      · have hd := dagp_ok_nonempty e existing hmark hok hbytes
        have hws := wsSession_of_ok e existing _ hmark (by rw [hd])
        have hevs : (download_and_get_path e existing).events =
            (download_rutube_video e).events := by rw [hd]
        rw [hws, hevs]
        constructor
        · rw [progressPairs_append]
          apply List.chain'_append.mpr
          refine ⟨hc, ?_, ?_⟩
          · exact List.chain'_singleton _
          · intro x hx y hy
            have hyh : (progressPairs [⟨Status.completed, some 100⟩]).head? =
                some (Status.completed, 100) := rfl
            rw [hyh] at hy
            simp only [Option.mem_def, Option.some.injEq] at hy
            subst hy
            have hx2 := hb x (mem_of_mem_getLast? hx)
            exact Or.inl (show x.2 ≤ (100 : ℚ) from hx2)
        · exact ⟨(download_rutube_video e).events,
            [⟨Status.completed, some 100⟩], rfl, hoknt hok, by simp, by simp,
            Or.inl rfl⟩
    · have hok2 : (download_rutube_video e).ok = false := by
        cases hx : (download_rutube_video e).ok
        · rfl
        · exact absurd hx hok
      obtain ⟨pre, hpre, hprent⟩ := hfail hok2
      have hd := dagp_not_ok e existing hmark hok2
      have hws := wsSession_of_error e existing hmark (by rw [hd])
      have hevs : (download_and_get_path e existing).events =
          (download_rutube_video e).events := by rw [hd]
      rw [hws, hevs, hpre]
      constructor
      · have hc2 := hc
        rw [hpre, progressPairs_append, progressPairs_err, List.append_nil] at hc2
        rw [progressPairs_append, progressPairs_append, progressPairs_err,
          List.append_nil, List.append_nil]
        exact hc2
      · refine ⟨pre, [⟨Status.error, none⟩, ⟨Status.error, none⟩],
          by simp, hprent, by simp, by simp, Or.inr ?_⟩
        intro x hx
        rcases List.mem_cons.mp hx with rfl | hx2
        · rfl
        · simpa using hx2
  · have hm : hasSubstr rutubeMarker e.url = false := by
      cases hx : hasSubstr rutubeMarker e.url
      · rfl
      · exact absurd hx hmark
    rw [wsSession_bad_domain e existing hm]
    constructor
    · exact List.chain'_nil
    · refine ⟨[], [⟨Status.error, none⟩], rfl,
        fun x hx => absurd hx (List.not_mem_nil x), by simp, by simp, Or.inr ?_⟩
      intro x hx
      simpa using hx

end Rutube

namespace Rutube

/-- The full event trace of the concrete successful two-segment
session. -/
theorem envOk_trace : wsSession envOk [] =
    [⟨Status.initializing, some 0⟩, ⟨Status.fetching_info, some 3⟩,
     ⟨Status.fetching_info, some 5⟩, ⟨Status.fetching_info, some 10⟩,
     ⟨Status.parsing, some 0⟩, ⟨Status.parsing, some 10⟩,
     ⟨Status.downloading, some 20⟩,
     ⟨Status.downloading, some (dlProgress 2 1)⟩,
     ⟨Status.downloading, some (dlProgress 2 2)⟩,
     ⟨Status.merging, some 80⟩,
     ⟨Status.merging, some (mgProgress 2 1)⟩,
     ⟨Status.merging, some (mgProgress 2 2)⟩,
     ⟨Status.completed, some 100⟩] := rfl

/-- Counterexample to C2 as stated: in the concrete successful session
the progress values are not globally non-decreasing (the trace carries
fetching_info at 10 immediately followed by parsing at 0), so the
conjunction of global non-decrease with the single-terminal-event
property fails. -/
theorem c2_progress_drop_counterexample :
    ¬ (List.Chain' (fun a b : Status × ℚ => a.2 ≤ b.2)
        (progressPairs (wsSession envOk [])) ∧
      (∃ pre x, wsSession envOk [] = pre ++ [x] ∧ isTerm x = true ∧
        ∀ y ∈ pre, isTerm y = false)) := by
  rintro ⟨hchain, -⟩
  have hpp : progressPairs (wsSession envOk []) =
      [(Status.initializing, 0), (Status.fetching_info, 3),
       (Status.fetching_info, 5), (Status.fetching_info, 10),
       (Status.parsing, 0), (Status.parsing, 10), (Status.downloading, 20),
       (Status.downloading, dlProgress 2 1), (Status.downloading, dlProgress 2 2),
       (Status.merging, 80), (Status.merging, mgProgress 2 1),
       (Status.merging, mgProgress 2 2), (Status.completed, 100)] := by
    rw [envOk_trace]
    rfl
  rw [hpp, List.chain'_cons, List.chain'_cons, List.chain'_cons,
    List.chain'_cons] at hchain
  have h4 := hchain.2.2.2.1
  norm_num at h4

end Rutube
